import Mathlib

set_option maxRecDepth 8192

/-!
Verification development for the tiled image cache of the ImageViwer_OpenCV
repository.  The definitions below are a shallow embedding of
`src/core/tile.cpp` and `src/core/tile_cache.cpp` (plus the thread-pool class
embedded in the latter).  Pixel buffers (`cv::Mat`) are modelled as dimensions
together with a total pixel function; machine integer arithmetic that can go
negative in the C++ (`int` coordinates) is carried out in `Int`.

The cache itself is modelled as a sequential state machine: worker threads are
represented by a list of pending jobs, and a `workerComplete` event runs the
worker lambda body and pushes its completion closure onto the completed-task
queue, exactly as the C++ worker does.  All consumer-side operations
(`getTile`, `clear`, `setSourceImage`, ...) are the functions of
`TileCache`.  Mutexes are invisible in this sequential model, with one
exception made explicit because it decides an outcome: `setSourceImage`
calls `clear()` while already holding the non-recursive `cacheMutex`, an
acquisition that can never succeed (`clearWithLock`), so that call never
returns.
-/

/-- Model of a `cv::Mat` pixel buffer: dimensions, channel count, a flag for
`depth() == CV_8U`, and a total pixel function (row, column, channel ↦ value).
Only indices below the dimensions are meaningful. -/
@[ext]
structure Mat where
  rows : Nat
  cols : Nat
  channels : Nat
  depth8U : Bool
  pix : Nat → Nat → Nat → Nat

/-- `cv::Mat::empty()`: total() == 0. -/
def Mat.isEmptyMat (m : Mat) : Bool := m.rows == 0 || m.cols == 0

/-- `cv::Mat::zeros(tileSize, tileSize, type)` keeping the source's channel
count and depth (the `type`). -/
def Mat.zerosMat (r c ch : Nat) (d8 : Bool) : Mat :=
  { rows := r, cols := c, channels := ch, depth8U := d8, pix := fun _ _ _ => 0 }

/-- A `cv::Rect` with `int` fields. -/
structure Rect where
  x : Int
  y : Int
  w : Int
  h : Int
deriving DecidableEq

/-- `cv::Rect` intersection (`operator &`): empty result is the all-zero
rectangle. -/
def Rect.inter (a b : Rect) : Rect :=
  let x := max a.x b.x
  let y := max a.y b.y
  let w := min (a.x + a.w) (b.x + b.w) - x
  let h := min (a.y + a.h) (b.y + b.h) - y
  if w ≤ 0 ∨ h ≤ 0 then ⟨0, 0, 0, 0⟩ else ⟨x, y, w, h⟩

/-- `cv::Mat(m, r)` / `m(r)`: the region-of-interest view.  Well-defined as a
pixel buffer when `roiValid m r` holds (otherwise OpenCV raises). -/
def Mat.roi (m : Mat) (r : Rect) : Mat :=
  { rows := r.h.toNat, cols := r.w.toNat, channels := m.channels,
    depth8U := m.depth8U,
    pix := fun i j c => m.pix (r.y.toNat + i) (r.x.toNat + j) c }

/-- The bounds check OpenCV performs when constructing a `Mat` from a ROI:
`0 ≤ x ∧ 0 ≤ y ∧ 0 ≤ w ∧ 0 ≤ h ∧ x + w ≤ cols ∧ y + h ≤ rows`. -/
def roiValid (m : Mat) (r : Rect) : Bool :=
  decide (0 ≤ r.x) && decide (0 ≤ r.y) && decide (0 ≤ r.w) && decide (0 ≤ r.h)
    && decide (r.x + r.w ≤ (m.cols : Int)) && decide (r.y + r.h ≤ (m.rows : Int))

/-- Modelled from the spec: `cv::resize(..., INTER_AREA)` is external OpenCV
library code, not part of this repository; the spec describes it as an
area-averaging resample to exactly the requested size.  Each destination pixel
averages the source pixels of its (never empty) box. -/
def resizeArea (src : Mat) (dw dh : Nat) : Mat :=
  { rows := dh, cols := dw, channels := src.channels, depth8U := src.depth8U,
    pix := fun i j c =>
      let rlo := i * src.rows / dh
      let rhi := max (rlo + 1) ((i + 1) * src.rows / dh)
      let clo := j * src.cols / dw
      let chi := max (clo + 1) ((j + 1) * src.cols / dw)
      (((List.range (rhi - rlo)).map (fun r =>
          (((List.range (chi - clo)).map (fun q =>
              src.pix (rlo + r) (clo + q) c))).sum)).sum)
        / ((rhi - rlo) * (chi - clo)) }

/-- The `cv::Rect validRect = sourceRect & imageRect` of `Tile::loadFromMat`. -/
def clipRect (source : Mat) (sourceRect : Rect) : Rect :=
  Rect.inter sourceRect ⟨0, 0, (source.cols : Int), (source.rows : Int)⟩

/-- `Tile::loadFromMat(source, sourceRect)` from `src/core/tile.cpp`: clips
`sourceRect` against the source bounds; empty intersection gives a zero tile of
the tile edge size; a clipped region whose dimensions differ from the tile edge
is resampled (INTER_AREA) to edge×edge; otherwise the region is cloned
verbatim.  Returns the tile's resulting `imageData`. -/
def loadFromMat (tileSize : Nat) (source : Mat) (sourceRect : Rect) : Mat :=
  if (clipRect source sourceRect).w * (clipRect source sourceRect).h = 0 then
    Mat.zerosMat tileSize tileSize source.channels source.depth8U
  else if (clipRect source sourceRect).w ≠ (tileSize : Int) ∨
      (clipRect source sourceRect).h ≠ (tileSize : Int) then
    resizeArea (source.roi (clipRect source sourceRect)) tileSize tileSize
  else
    source.roi (clipRect source sourceRect)

/-- Outcome of running the worker lambda enqueued by `TileCache::getTile`. -/
inductive WorkerResult where
  /-- The `width <= 0 || height <= 0` early return: no completion is pushed. -/
  | noCompletion : WorkerResult
  /-- OpenCV raises on an out-of-bounds ROI (`cv::Mat(sourceImage, roi)`);
  the exception is captured by the packaged task and no completion is pushed. -/
  | cvError : WorkerResult
  /-- The worker pushed a completion closure carrying this `tileData`. -/
  | completion (tileData : Mat) : WorkerResult

/-- `int scale = 1 << key.level` in the worker lambda. -/
def tileScale (level : Nat) : Int := 2 ^ level

/-- `int tileScaledSize = tileSize * scale`. -/
def tileScaledSize (ts level : Nat) : Int := (ts : Int) * tileScale level

/-- `srcX = min(key.x * tileScaledSize, sourceImage.cols - 1)`. -/
def tileSrcX (ts : Nat) (src : Mat) (level x : Nat) : Int :=
  min ((x : Int) * tileScaledSize ts level) ((src.cols : Int) - 1)

/-- `srcY = min(key.y * tileScaledSize, sourceImage.rows - 1)`. -/
def tileSrcY (ts : Nat) (src : Mat) (level y : Nat) : Int :=
  min ((y : Int) * tileScaledSize ts level) ((src.rows : Int) - 1)

/-- `width = min(tileScaledSize, sourceImage.cols - srcX)`. -/
def tileWidth (ts : Nat) (src : Mat) (level x : Nat) : Int :=
  min (tileScaledSize ts level) ((src.cols : Int) - tileSrcX ts src level x)

/-- `height = min(tileScaledSize, sourceImage.rows - srcY)`. -/
def tileHeight (ts : Nat) (src : Mat) (level y : Nat) : Int :=
  min (tileScaledSize ts level) ((src.rows : Int) - tileSrcY ts src level y)

/-- `cv::Rect roi(srcX, srcY, width, height)`. -/
def tileRoi (ts : Nat) (src : Mat) (level x y : Nat) : Rect :=
  ⟨tileSrcX ts src level x, tileSrcY ts src level y,
   tileWidth ts src level x, tileHeight ts src level y⟩

/-- Body of the worker lambda in `TileCache::getTile`
(`src/core/tile_cache.cpp`): computes the source-space rectangle of tile
`(level, x, y)`, clamps its origin to the last source row/column, clips its
size to the source bounds, and either downsamples (level > 0) or crops
verbatim.  Grid coordinates are the non-negative ones the viewport computes;
the `int` arithmetic on them is carried out in `Int`. -/
def workerRun (ts : Nat) (src : Mat) (level x y : Nat) : WorkerResult :=
  if tileWidth ts src level x ≤ 0 ∨ tileHeight ts src level y ≤ 0 then .noCompletion
  else if roiValid src (tileRoi ts src level x y) then
    if tileScale level > 1 then
      .completion (resizeArea (src.roi (tileRoi ts src level x y)) ts ts)
    else .completion (src.roi (tileRoi ts src level x y))
  else .cvError

/-- The completion closure pushed by the worker applies
`tile->loadFromMat(tileData, cv::Rect(0, 0, tileData.cols, tileData.rows))`. -/
def applyCompletion (tileSize : Nat) (tileData : Mat) : Mat :=
  loadFromMat tileSize tileData ⟨0, 0, (tileData.cols : Int), (tileData.rows : Int)⟩

/-- End-to-end pixel data of a tile once its load job has run and its
completion has been applied: `none` when the job pushed no completion. -/
def loadedTileData (tileSize : Nat) (src : Mat) (level x y : Nat) : Option Mat :=
  match workerRun tileSize src level x y with
  | .completion d => some (applyCompletion tileSize d)
  | _ => none

/-- A constant-valued test image. -/
def constMat (r c ch v : Nat) : Mat :=
  { rows := r, cols := c, channels := ch, depth8U := true, pix := fun _ _ _ => v }

/-! ## The cache state machine (`TileCache`, `src/core/tile_cache.cpp`) -/

/-- The `TileKey` struct: grid coordinates of a tile (the non-negative ones the
viewport computes). -/
structure TileKey where
  level : Nat
  x : Nat
  y : Nat
deriving DecidableEq

/-- A `CacheEntry`.  `tileId` is the identity of the `shared_ptr<Tile>`
instance stored in the entry; `tileData` is that tile's `imageData`
(`none` while the tile is still an empty stub).  The `loadingFuture` job
handle is represented by the cache state's `pendingJobs` list. -/
structure CacheEntry where
  tileId : Nat
  tileData : Option Mat
  size : Nat
  lastAccess : Nat

/-- The `TileCache` state.  `cache` is the `unordered_map` as an association
list (one entry per key), `now` models `std::chrono::steady_clock` as a
monotone counter, `pendingJobs` the jobs sitting in the thread pool, and
`completedTasks` the completed-task queue of closures (each closure captures
its key and the computed `tileData`). -/
structure CacheState where
  cache : List (TileKey × CacheEntry)
  currentMemoryUsage : Nat
  maxMemory : Nat
  tileSize : Nat
  sourceImage : Mat
  nextTileId : Nat
  pendingJobs : List TileKey
  completedTasks : List (TileKey × Mat)
  now : Nat

/-- `cache.find(key)` on the association list. -/
def lookupE (c : List (TileKey × CacheEntry)) (k : TileKey) : Option CacheEntry :=
  (c.find? (fun e => e.1 == k)).map (fun e => e.2)

/-- In-place mutation of the entry stored under key `k` (as the C++ does
through the `unordered_map` iterator): every other entry is untouched. -/
def mapEntry (k : TileKey) (f : CacheEntry → CacheEntry)
    (c : List (TileKey × CacheEntry)) : List (TileKey × CacheEntry) :=
  c.map (fun e => if e.1 == k then (e.1, f e.2) else e)

/-- `it->second.lastAccess = steady_clock::now()` on a hit. -/
def touch (c : List (TileKey × CacheEntry)) (k : TileKey) (t : Nat) :
    List (TileKey × CacheEntry) :=
  mapEntry k (fun v => { v with lastAccess := t }) c

/-- Running one completion closure: `cache.find(k)`; if present, the entry's
tile gets `loadFromMat(tileData, Rect(0, 0, tileData.cols, tileData.rows))`;
if the key is absent the closure is a no-op. -/
def applyTask (ts : Nat) (c : List (TileKey × CacheEntry)) (k : TileKey) (d : Mat) :
    List (TileKey × CacheEntry) :=
  mapEntry k (fun v => { v with tileData := some (applyCompletion ts d) }) c

/-- Running a drained batch of completion closures in FIFO order. -/
def runTasks (ts : Nat) (tasks : List (TileKey × Mat)) (c : List (TileKey × CacheEntry)) :
    List (TileKey × CacheEntry) :=
  tasks.foldl (fun c t => applyTask ts c t.1 t.2) c

namespace TileCache

/-- `TileCache::processCompletedTasks`: swap the queue out, then run every
closure. -/
def processCompletedTasks (s : CacheState) : CacheState :=
  { s with cache := runTasks s.tileSize s.completedTasks s.cache,
           completedTasks := [] }

/-- `sum of the per-entry byte sizes` of a cache map. -/
def sumSizes (c : List (TileKey × CacheEntry)) : Nat :=
  (c.map (fun e => e.2.size)).sum

/-- One iteration body of the eviction loop: linear scan for the entry with
the oldest `lastAccess` (strict `<`, so the first minimum in iteration order
wins), then `currentMemoryUsage -= oldest->second.size; cache.erase(oldest)`.
In well-formed states (`CacheWF` below) the erased entry's size never exceeds
the counter, so `Nat` subtraction agrees with the `size_t` subtraction. -/
def oldestStep (best cur : TileKey × CacheEntry) : TileKey × CacheEntry :=
  if cur.2.lastAccess < best.2.lastAccess then cur else best

/-- The scan of the while-loop body: `oldest = cache.begin()`, then walk the
map keeping any strictly older entry. -/
def scanOldest : List (TileKey × CacheEntry) → Option (TileKey × CacheEntry)
  | [] => none
  | e :: es => some (es.foldl oldestStep e)

/-- One eviction step (the body of `evictIfNeeded`'s while loop). -/
def evictOne (s : CacheState) : CacheState :=
  match scanOldest s.cache with
  | none => s
  | some p =>
      { s with currentMemoryUsage := s.currentMemoryUsage - p.2.size,
               cache := s.cache.eraseP (fun e => e.1 == p.1) }

/-- The while loop of `TileCache::evictIfNeeded`, fuelled: every iteration
erases one entry, so `cache.length` iterations always suffice. -/
def evictLoop : Nat → CacheState → CacheState
  | 0, s => s
  | fuel + 1, s =>
      if s.currentMemoryUsage > s.maxMemory / 2 ∧ s.cache.isEmpty = false then
        evictLoop fuel (evictOne s)
      else s

/-- `TileCache::evictIfNeeded`:
`while (currentMemoryUsage > maxMemory / 2 && !cache.empty())` evict the
least-recently-used entry. -/
def evictIfNeeded (s : CacheState) : CacheState :=
  evictLoop s.cache.length s

/-- `size_t tileSizeBytes = tileSize * tileSize * sourceImage.channels() *
(sourceImage.depth() == CV_8U ? 1 : 4)`. -/
def stubSizeBytes (s : CacheState) : Nat :=
  s.tileSize * s.tileSize * s.sourceImage.channels *
    (if s.sourceImage.depth8U then 1 else 4)

/-- The miss path of `getTile` before the eviction check: create the stub
tile (a fresh `Tile` instance), insert the entry with its approximate size
and the current time, enqueue the load job, and bump the memory counter. -/
def insertStub (s : CacheState) (k : TileKey) : CacheState :=
  { s with
      cache := s.cache ++
        [(k, { tileId := s.nextTileId, tileData := none,
               size := stubSizeBytes s, lastAccess := s.now })],
      nextTileId := s.nextTileId + 1,
      now := s.now + 1,
      pendingJobs := s.pendingJobs ++ [k],
      currentMemoryUsage := s.currentMemoryUsage + stubSizeBytes s }

/-- `TileCache::getTile(level, x, y)`: drain the completion queue, then either
refresh and return the existing entry's tile, or insert a stub entry, enqueue
its load job, account its approximate size, and evict if over budget.  Returns
the `tileId` of the returned `TilePtr` alongside the new state. -/
def getTile (s : CacheState) (level x y : Nat) : Nat × CacheState :=
  let k : TileKey := ⟨level, x, y⟩
  let s1 := processCompletedTasks s
  match lookupE s1.cache k with
  | some e =>
      (e.tileId, { s1 with cache := touch s1.cache k s1.now, now := s1.now + 1 })
  | none =>
      let s2 := insertStub s1 k
      (s1.nextTileId,
        if s2.currentMemoryUsage > s2.maxMemory then evictIfNeeded s2 else s2)

/-- `TileCache::tileCount`. -/
def tileCount (s : CacheState) : Nat := s.cache.length

/-- `TileCache::memoryUsage`. -/
def memoryUsage (s : CacheState) : Nat := s.currentMemoryUsage

/-- `TileCache::clear`: drop all entries, zero the counter, and swap the
completed-task queue with an empty one.  Jobs still inside the thread pool
(`pendingJobs`) are untouched — `clear` has no way to reach them. -/
def clear (s : CacheState) : CacheState :=
  { s with cache := [], currentMemoryUsage := 0, completedTasks := [] }

/-- `TileCache::sourceSize`: `QSize(0, 0)` when no source is loaded, else
`QSize(cols, rows)` (width, height). -/
def sourceSize (s : CacheState) : Nat × Nat :=
  if s.sourceImage.isEmptyMat then (0, 0) else (s.sourceImage.cols, s.sourceImage.rows)

/-- The body of `TileCache::clear` behind its `lock_guard(cacheMutex)`:
`cacheMutex` is a non-recursive `std::mutex`, so acquiring it while the
calling thread already holds it is undefined behaviour — in practice the
thread blocks forever.  `none` models the acquisition (and hence the call)
never completing; with the mutex free the body is `clear`. -/
def clearWithLock (cacheMutexHeld : Bool) (s : CacheState) : Option CacheState :=
  if cacheMutexHeld then none else some (clear s)

/-- `TileCache::setSourceImage`: takes `lock_guard(cacheMutex)` and then calls
`clear()`, which tries to re-lock the same non-recursive mutex while this
thread holds it (`clearWithLock true`) — so the call never returns (`none`).
Had the nested acquisition succeeded, the body would install the decode
result (`cv::imread` is external; its failure mode is an empty `Mat`, passed
in as `decoded`) and return `false` — with the empty buffer installed — when
the decode came back empty. -/
def setSourceImage (s : CacheState) (decoded : Mat) : Option (Bool × CacheState) :=
  match clearWithLock true s with
  | none => none
  | some s1 =>
      let s2 := { s1 with sourceImage := decoded }
      if decoded.isEmptyMat then some (false, s2) else some (true, s2)

/-- Worker-thread event: a queued job for key `k` runs.  The worker lambda
reads the cache's current `tileSize` and `sourceImage` and, unless it early
returns or OpenCV raises, pushes its completion closure onto the
completed-task queue. -/
def workerComplete (s : CacheState) (k : TileKey) : CacheState :=
  if k ∈ s.pendingJobs then
    match workerRun s.tileSize s.sourceImage k.level k.x k.y with
    | .completion d =>
        { s with pendingJobs := s.pendingJobs.erase k,
                 completedTasks := s.completedTasks ++ [(k, d)] }
    | _ => { s with pendingJobs := s.pendingJobs.erase k }
  else s

end TileCache

/-- The operations that mutate the cache map or the memory counter. -/
inductive CacheOp where
  | getTileOp (level x y : Nat) : CacheOp
  | workerCompleteOp (k : TileKey) : CacheOp
  | clearOp : CacheOp
  | setSourceOp (decoded : Mat) : CacheOp

/-- One step of the cache state machine.  A `setSourceImage` call deadlocks
inside its nested `clear()` before mutating anything, so its observable state
is unchanged (the `none` arm; the `some` arm is the return the C++ never
reaches). -/
def CacheOp.step (op : CacheOp) (s : CacheState) : CacheState :=
  match op with
  | .getTileOp level x y => (TileCache.getTile s level x y).2
  | .workerCompleteOp k => TileCache.workerComplete s k
  | .clearOp => TileCache.clear s
  | .setSourceOp m =>
      match TileCache.setSourceImage s m with
      | none => s
      | some r => r.2

/-- Well-formedness of a cache state: the `unordered_map` has one entry per
key, and the memory counter equals the sum of the per-entry byte sizes. -/
def CacheWF (s : CacheState) : Prop :=
  (s.cache.map (fun e => e.1)).Nodup ∧
    s.currentMemoryUsage = TileCache.sumSizes s.cache

/-! ## The thread pool (`TileCache::ThreadPool`) -/

/-- State of `TileCache::ThreadPool`: the stop flag and the FIFO task queue
(tasks identified by numbers; their bodies are irrelevant to the contract). -/
structure ThreadPool where
  stop : Bool
  tasks : List Nat

/-- `ThreadPool::enqueue`: under the queue lock, throw
`std::runtime_error("enqueue on stopped ThreadPool")` if the stop flag is set,
else append the task to the queue. -/
def ThreadPool.enqueue (p : ThreadPool) (job : Nat) : Except String ThreadPool :=
  if p.stop then Except.error "enqueue on stopped ThreadPool"
  else Except.ok { p with tasks := p.tasks ++ [job] }

/-- The destructor's first action: set the stop flag (then wake and join all
workers). -/
def ThreadPool.shutdown (p : ThreadPool) : ThreadPool :=
  { p with stop := true }

/-! ## Concrete states used by witnesses and counterexamples -/

/-- A key in `demoState`. -/
def demoKeyA : TileKey := ⟨0, 0, 0⟩

/-- A key in `demoState`. -/
def demoKeyB : TileKey := ⟨0, 1, 0⟩

/-- Entry for `demoKeyA`: most recently used. -/
def demoEntryA : CacheEntry :=
  { tileId := 10, tileData := none, size := 100, lastAccess := 5 }

/-- Entry for `demoKeyB`: least recently used. -/
def demoEntryB : CacheEntry :=
  { tileId := 11, tileData := none, size := 60, lastAccess := 3 }

/-- A small well-formed cache state that is over its memory budget. -/
def demoState : CacheState :=
  { cache := [(demoKeyA, demoEntryA), (demoKeyB, demoEntryB)],
    currentMemoryUsage := 160, maxMemory := 100, tileSize := 256,
    sourceImage := constMat 4 4 1 9, nextTileId := 12,
    pendingJobs := [], completedTasks := [], now := 6 }

/-- Start state for the clear/stale-completion race trace: empty cache, a
4×4 single-channel source, tile edge 256, 512 MB budget. -/
def c8start : CacheState :=
  { cache := [], currentMemoryUsage := 0, maxMemory := 536870912, tileSize := 256,
    sourceImage := constMat 4 4 1 9, nextTileId := 0,
    pendingJobs := [], completedTasks := [], now := 0 }

/-- The key whose load races with `clear()`. -/
def c8key : TileKey := ⟨0, 0, 0⟩

/-- `getTile(0,0,0)`: stub tile 0 inserted, job J1 enqueued. -/
def c8afterFirstGet : CacheState := (TileCache.getTile c8start 0 0 0).2

/-- `clear()` while J1 is still in flight in the pool. -/
def c8afterClear : CacheState := TileCache.clear c8afterFirstGet

/-- `getTile(0,0,0)` again: stub tile 1 inserted, job J2 enqueued. -/
def c8afterSecondGet : CacheState := (TileCache.getTile c8afterClear 0 0 0).2

/-- J1 (in flight at `clear()` time) now finishes and pushes its completion. -/
def c8afterStaleJob : CacheState := TileCache.workerComplete c8afterSecondGet c8key

/-- The next `getTile` drains the queue, applying J1's stale completion. -/
def c8final : CacheState := (TileCache.getTile c8afterStaleJob 0 0 0).2

/-! ## Basic lemmas about the tile-loading pipeline -/

theorem loadFromMat_rows (ts : Nat) (source : Mat) (r : Rect) :
    (loadFromMat ts source r).rows = ts := by
  unfold loadFromMat
  split
  · rfl
  · split
    · rfl
    · rename_i hne
      push_neg at hne
      show (clipRect source r).h.toNat = ts
      rw [hne.2]
      exact Int.toNat_natCast ts

theorem loadFromMat_cols (ts : Nat) (source : Mat) (r : Rect) :
    (loadFromMat ts source r).cols = ts := by
  unfold loadFromMat
  split
  · rfl
  · split
    · rfl
    · rename_i hne
      push_neg at hne
      show (clipRect source r).w.toNat = ts
      rw [hne.1]
      exact Int.toNat_natCast ts

/-- C6: once a tile's load has been applied, its pixel buffer is exactly
edge×edge, for every level and every amount of clipping of the source region
at the image boundaries. -/
theorem c6_loaded_tile_is_edge_square (ts : Nat) (src : Mat) (level x y : Nat)
    (t : Mat) (h : loadedTileData ts src level x y = some t) :
    t.rows = ts ∧ t.cols = ts := by
  unfold loadedTileData at h
  cases hw : workerRun ts src level x y with
  | noCompletion => rw [hw] at h; exact absurd h (by simp)
  | cvError => rw [hw] at h; exact absurd h (by simp)
  | completion d =>
      rw [hw] at h
      have ht : t = applyCompletion ts d := by
        injection h with h
        exact h.symm
      subst ht
      exact ⟨loadFromMat_rows .., loadFromMat_cols ..⟩

/-- Witness for C6 at a concrete input: the level-1 tile (1,0,0) of a 4×4
image, whose source region is clipped from 512×512 down to 4×4. -/
theorem c6_witness :
    (applyCompletion 256
        (resizeArea ((constMat 4 4 1 9).roi (tileRoi 256 (constMat 4 4 1 9) 1 0 0)) 256 256)).rows
        = 256 ∧
      (applyCompletion 256
        (resizeArea ((constMat 4 4 1 9).roi (tileRoi 256 (constMat 4 4 1 9) 1 0 0)) 256 256)).cols
        = 256 :=
  c6_loaded_tile_is_edge_square 256 (constMat 4 4 1 9) 1 0 0 _ rfl

theorem tileSrcX_of_inbounds (ts : Nat) (src : Mat) (x : Nat) (hts : 0 < ts)
    (hx : (x + 1) * ts ≤ src.cols) :
    tileSrcX ts src 0 x = (x : Int) * ts := by
  have hx' : ((x : Int) + 1) * (ts : Int) ≤ (src.cols : Int) := by exact_mod_cast hx
  have hts' : (1 : Int) ≤ (ts : Int) := by exact_mod_cast hts
  have h2 : (x : Int) * (ts : Int) + (ts : Int) ≤ (src.cols : Int) := by nlinarith
  unfold tileSrcX tileScaledSize tileScale
  rw [pow_zero, mul_one]
  exact min_eq_left (by linarith)

theorem tileWidth_of_inbounds (ts : Nat) (src : Mat) (x : Nat) (hts : 0 < ts)
    (hx : (x + 1) * ts ≤ src.cols) :
    tileWidth ts src 0 x = (ts : Int) := by
  have hx' : ((x : Int) + 1) * (ts : Int) ≤ (src.cols : Int) := by exact_mod_cast hx
  have h2 : (x : Int) * (ts : Int) + (ts : Int) ≤ (src.cols : Int) := by nlinarith
  unfold tileWidth
  rw [tileSrcX_of_inbounds ts src x hts hx]
  unfold tileScaledSize tileScale
  rw [pow_zero, mul_one]
  exact min_eq_left (by linarith)

theorem tileSrcY_of_inbounds (ts : Nat) (src : Mat) (y : Nat) (hts : 0 < ts)
    (hy : (y + 1) * ts ≤ src.rows) :
    tileSrcY ts src 0 y = (y : Int) * ts := by
  have hy' : ((y : Int) + 1) * (ts : Int) ≤ (src.rows : Int) := by exact_mod_cast hy
  have hts' : (1 : Int) ≤ (ts : Int) := by exact_mod_cast hts
  have h2 : (y : Int) * (ts : Int) + (ts : Int) ≤ (src.rows : Int) := by nlinarith
  unfold tileSrcY tileScaledSize tileScale
  rw [pow_zero, mul_one]
  exact min_eq_left (by linarith)

theorem tileHeight_of_inbounds (ts : Nat) (src : Mat) (y : Nat) (hts : 0 < ts)
    (hy : (y + 1) * ts ≤ src.rows) :
    tileHeight ts src 0 y = (ts : Int) := by
  have hy' : ((y : Int) + 1) * (ts : Int) ≤ (src.rows : Int) := by exact_mod_cast hy
  have h2 : (y : Int) * (ts : Int) + (ts : Int) ≤ (src.rows : Int) := by nlinarith
  unfold tileHeight
  rw [tileSrcY_of_inbounds ts src y hts hy]
  unfold tileScaledSize tileScale
  rw [pow_zero, mul_one]
  exact min_eq_left (by linarith)

/-- At level 0 on a fully in-bounds tile, the worker crops verbatim. -/
theorem workerRun_level0_inbounds (ts : Nat) (src : Mat) (x y : Nat) (hts : 0 < ts)
    (hx : (x + 1) * ts ≤ src.cols) (hy : (y + 1) * ts ≤ src.rows) :
    workerRun ts src 0 x y
      = .completion (src.roi ⟨(x : Int) * ts, (y : Int) * ts, (ts : Int), (ts : Int)⟩) := by
  have hroi : tileRoi ts src 0 x y
      = ⟨(x : Int) * ts, (y : Int) * ts, (ts : Int), (ts : Int)⟩ := by
    unfold tileRoi
    rw [tileSrcX_of_inbounds ts src x hts hx, tileSrcY_of_inbounds ts src y hts hy,
      tileWidth_of_inbounds ts src x hts hx, tileHeight_of_inbounds ts src y hts hy]
  have hx' : ((x : Int) + 1) * (ts : Int) ≤ (src.cols : Int) := by exact_mod_cast hx
  have hy' : ((y : Int) + 1) * (ts : Int) ≤ (src.rows : Int) := by exact_mod_cast hy
  have hts' : (1 : Int) ≤ (ts : Int) := by exact_mod_cast hts
  have h2 : (x : Int) * (ts : Int) + (ts : Int) ≤ (src.cols : Int) := by nlinarith
  have h3 : (y : Int) * (ts : Int) + (ts : Int) ≤ (src.rows : Int) := by nlinarith
  unfold workerRun
  rw [tileWidth_of_inbounds ts src x hts hx, tileHeight_of_inbounds ts src y hts hy, hroi]
  rw [if_neg (by push_neg; constructor <;> linarith)]
  rw [if_pos]
  · rw [if_neg (by unfold tileScale; rw [pow_zero]; norm_num)]
  · simp only [roiValid, Bool.and_eq_true, decide_eq_true_eq]
    refine ⟨⟨⟨⟨⟨?_, ?_⟩, ?_⟩, ?_⟩, ?_⟩, ?_⟩ <;> first | positivity | linarith

/-- C2: a level-0 tile whose source rectangle lies entirely within the source
bounds loads pixel data bit-identical to the corresponding edge×edge region of
the source buffer (the clipped region already has the tile dimensions, so no
resampling is applied). -/
theorem c2_level0_roundtrip (ts : Nat) (src : Mat) (x y : Nat) (hts : 0 < ts)
    (hx : (x + 1) * ts ≤ src.cols) (hy : (y + 1) * ts ≤ src.rows)
    (i j c : Nat) (hi : i < ts) (hj : j < ts) :
    (loadedTileData ts src 0 x y).map (fun t => t.pix i j c)
      = some (src.pix (y * ts + i) (x * ts + j) c) := by
  have hcols : (src.roi ⟨(x : Int) * ts, (y : Int) * ts, (ts : Int), (ts : Int)⟩).cols = ts := by
    simp [Mat.roi]
  have hrows : (src.roi ⟨(x : Int) * ts, (y : Int) * ts, (ts : Int), (ts : Int)⟩).rows = ts := by
    simp [Mat.roi]
  have hts' : (1 : Int) ≤ (ts : Int) := by exact_mod_cast hts
  have hinter : Rect.inter ⟨0, 0, (ts : Int), (ts : Int)⟩ ⟨0, 0, (ts : Int), (ts : Int)⟩
      = ⟨0, 0, (ts : Int), (ts : Int)⟩ := by
    unfold Rect.inter
    rw [if_neg (by push_neg; simp; omega)]
    simp
  have happ : applyCompletion ts (src.roi ⟨(x : Int) * ts, (y : Int) * ts, (ts : Int), (ts : Int)⟩)
      = (src.roi ⟨(x : Int) * ts, (y : Int) * ts, (ts : Int), (ts : Int)⟩).roi
          ⟨0, 0, (ts : Int), (ts : Int)⟩ := by
    unfold applyCompletion loadFromMat clipRect
    rw [hcols, hrows, hinter]
    rw [if_neg (by simp; positivity)]
    rw [if_neg (by push_neg; exact ⟨rfl, rfl⟩)]
  unfold loadedTileData
  rw [workerRun_level0_inbounds ts src x y hts hx hy]
  show (some (applyCompletion ts
      (src.roi ⟨(x : Int) * ts, (y : Int) * ts, (ts : Int), (ts : Int)⟩))).map
        (fun t => t.pix i j c) = _
  rw [happ]
  have h4 : ((y : Int) * (ts : Int)).toNat = y * ts := by
    rw [show ((y : Int) * (ts : Int)) = ((y * ts : Nat) : Int) by push_cast; ring,
      Int.toNat_natCast]
  have h5 : ((x : Int) * (ts : Int)).toNat = x * ts := by
    rw [show ((x : Int) * (ts : Int)) = ((x * ts : Nat) : Int) by push_cast; ring,
      Int.toNat_natCast]
  simp [Mat.roi, h4, h5]

/-- Witness for C2: tile (0,0,0) of a 256×256 constant image, pixel (0,0,0). -/
theorem c2_witness :
    (loadedTileData 256 (constMat 256 256 3 7) 0 0 0).map (fun t => t.pix 0 0 0)
      = some ((constMat 256 256 3 7).pix (0 * 256 + 0) (0 * 256 + 0) 0) :=
  c2_level0_roundtrip 256 (constMat 256 256 3 7) 0 0 (by decide)
    (by decide) (by decide) 0 0 0 (by decide) (by decide)

/-- On a non-empty source the worker lambda always reaches a completion: the
origin clamp (`srcX = min(..., cols - 1)`) forces `width ≥ 1` and
`height ≥ 1`, so neither the early return nor the OpenCV bounds error can
fire for the grid coordinates the viewport computes. -/
theorem workerRun_completion_of_nonempty (ts : Nat) (src : Mat) (level x y : Nat)
    (hts : 0 < ts) (hr : 0 < src.rows) (hc : 0 < src.cols) :
    ∃ d, workerRun ts src level x y = WorkerResult.completion d := by
  have hts' : (1 : Int) ≤ (ts : Int) := by exact_mod_cast hts
  have hr' : (1 : Int) ≤ (src.rows : Int) := by exact_mod_cast hr
  have hc' : (1 : Int) ≤ (src.cols : Int) := by exact_mod_cast hc
  have hscale : (1 : Int) ≤ tileScale level := by
    have h0 : (0 : Int) < 2 ^ level := pow_pos (by norm_num) level
    unfold tileScale
    omega
  have hT : (1 : Int) ≤ tileScaledSize ts level := by
    unfold tileScaledSize
    nlinarith
  have hx0 : (0 : Int) ≤ (x : Int) * tileScaledSize ts level := by positivity
  have hy0 : (0 : Int) ≤ (y : Int) * tileScaledSize ts level := by positivity
  have hsx0 : 0 ≤ tileSrcX ts src level x := le_min hx0 (by linarith)
  have hsy0 : 0 ≤ tileSrcY ts src level y := le_min hy0 (by linarith)
  have hsxlt : tileSrcX ts src level x ≤ (src.cols : Int) - 1 := min_le_right ..
  have hsylt : tileSrcY ts src level y ≤ (src.rows : Int) - 1 := min_le_right ..
  have hw1 : 1 ≤ tileWidth ts src level x := le_min hT (by linarith)
  have hh1 : 1 ≤ tileHeight ts src level y := le_min hT (by linarith)
  have hwle : tileWidth ts src level x ≤ (src.cols : Int) - tileSrcX ts src level x :=
    min_le_right ..
  have hhle : tileHeight ts src level y ≤ (src.rows : Int) - tileSrcY ts src level y :=
    min_le_right ..
  have hvalid : roiValid src (tileRoi ts src level x y) = true := by
    simp only [roiValid, tileRoi, Bool.and_eq_true, decide_eq_true_eq]
    refine ⟨⟨⟨⟨⟨?_, ?_⟩, ?_⟩, ?_⟩, ?_⟩, ?_⟩ <;> linarith
  refine ⟨if tileScale level > 1 then resizeArea (src.roi (tileRoi ts src level x y)) ts ts
    else src.roi (tileRoi ts src level x y), ?_⟩
  unfold workerRun
  rw [if_neg (by push_neg; constructor <;> linarith), if_pos hvalid]
  split <;> rfl

/-- C1 counterexample: on a 10000×8000 3-channel all-255 source with edge 256,
the loaded tile (0, 39, 31) has value 255 — not 0 — at pixel column 200, which
lies outside the claimed 16-pixel-wide column of real data that was supposed
to be the only non-zero-filled part of the tile. -/
theorem c1_counterexample :
    (loadedTileData 256 (constMat 8000 10000 3 255) 0 39 31).map
      (fun t => t.pix 0 200 0) = some 255 := by decide

/-- C1 (amended): on a 10000×8000 source with edge 256, tile (0, 39, 31) is
clipped to the 16×64-pixel source region at (9984, 7936) and that region is
area-resampled (stretched) to fill the whole 256×256 tile — no pixel is
zero-filled.  In general a tile request whose rectangle is clipped against the
image bounds (including one lying wholly outside the image, whose origin is
clamped to the last row/column) yields a resampled tile rather than a
zero-filled tile or an error. -/
theorem c1_clipped_tile_is_stretched (src : Mat)
    (h1 : src.rows = 8000) (h2 : src.cols = 10000) :
    loadedTileData 256 src 0 39 31
        = some (resizeArea (src.roi ⟨9984, 7936, 16, 64⟩) 256 256) ∧
      ∀ level x y : Nat, ∃ d, workerRun 256 src level x y = WorkerResult.completion d := by
  constructor
  · have hroi : tileRoi 256 src 0 39 31 = ⟨9984, 7936, 16, 64⟩ := by
      unfold tileRoi tileWidth tileHeight tileSrcX tileSrcY tileScaledSize tileScale
      rw [h1, h2]
      norm_num [min_def]
    have hW : tileWidth 256 src 0 39 = 16 := by
      unfold tileWidth tileSrcX tileScaledSize tileScale
      rw [h2]
      norm_num [min_def]
    have hH : tileHeight 256 src 0 31 = 64 := by
      unfold tileHeight tileSrcY tileScaledSize tileScale
      rw [h1]
      norm_num [min_def]
    have hvalid : roiValid src (tileRoi 256 src 0 39 31) = true := by
      rw [hroi]
      simp only [roiValid, Bool.and_eq_true, decide_eq_true_eq]
      rw [h1, h2]
      norm_num
    have hworker : workerRun 256 src 0 39 31
        = .completion (src.roi ⟨9984, 7936, 16, 64⟩) := by
      unfold workerRun
      rw [hW, hH, if_neg (by norm_num), if_pos hvalid,
        if_neg (by unfold tileScale; norm_num), hroi]
    have hc16 : (((src.roi ⟨9984, 7936, 16, 64⟩).cols : Nat) : Int) = 16 := by
      simp [Mat.roi]
    have hr64 : (((src.roi ⟨9984, 7936, 16, 64⟩).rows : Nat) : Int) = 64 := by
      simp [Mat.roi]
    have hint : Rect.inter ⟨0, 0, 16, 64⟩ ⟨0, 0, 16, 64⟩ = ⟨0, 0, 16, 64⟩ := by
      unfold Rect.inter
      norm_num
    have happ : applyCompletion 256 (src.roi ⟨9984, 7936, 16, 64⟩)
        = resizeArea ((src.roi ⟨9984, 7936, 16, 64⟩).roi ⟨0, 0, 16, 64⟩) 256 256 := by
      unfold applyCompletion loadFromMat clipRect
      rw [hc16, hr64, hint]
      rw [if_neg (by norm_num), if_pos (by norm_num)]
    have hpix : ((src.roi ⟨9984, 7936, 16, 64⟩).roi ⟨0, 0, 16, 64⟩).pix
        = (src.roi ⟨9984, 7936, 16, 64⟩).pix := by
      funext i j c
      show src.pix ((7936 : Int).toNat + ((0 : Int).toNat + i))
          ((9984 : Int).toNat + ((0 : Int).toNat + j)) c
        = src.pix ((7936 : Int).toNat + i) ((9984 : Int).toNat + j) c
      norm_num
    have hfull : (src.roi ⟨9984, 7936, 16, 64⟩).roi ⟨0, 0, 16, 64⟩
        = src.roi ⟨9984, 7936, 16, 64⟩ :=
      Mat.ext rfl rfl rfl rfl hpix
    unfold loadedTileData
    rw [hworker]
    show some (applyCompletion 256 (src.roi ⟨9984, 7936, 16, 64⟩)) = _
    rw [happ, hfull]
  · intro level x y
    exact workerRun_completion_of_nonempty 256 src level x y (by norm_num)
      (by rw [h1]; norm_num) (by rw [h2]; norm_num)

/-- Witness for the amended C1 at the concrete all-255 source. -/
theorem c1_witness :
    loadedTileData 256 (constMat 8000 10000 3 255) 0 39 31
      = some (resizeArea ((constMat 8000 10000 3 255).roi ⟨9984, 7936, 16, 64⟩) 256 256) :=
  (c1_clipped_tile_is_stretched (constMat 8000 10000 3 255) rfl rfl).1

/-- C7 (code bug): the claimed post-failure state — `sourceSize() = (0,0)`
and `tileCount() = 0` after `setSourceImage` returns failure — is
unreachable, because `setSourceImage` never returns at all: it holds
`cacheMutex` and calls `clear()`, which re-locks the same non-recursive
mutex (undefined behaviour, a deterministic self-deadlock), on every input,
before the decode is even attempted. -/
theorem c7_setSourceImage_deadlocks (s : CacheState) (decoded : Mat) :
    TileCache.setSourceImage s decoded = none := rfl

/-- C9: `enqueue` on the thread pool after shutdown (the stop flag set) fails
with the "pool stopped" error instead of silently dropping the work. -/
theorem c9_enqueue_after_shutdown_fails (p : ThreadPool) (job : Nat)
    (h : p.stop = true) :
    p.enqueue job = Except.error "enqueue on stopped ThreadPool" := by
  simp [ThreadPool.enqueue, h]

/-- Witness for C9: a freshly shut-down pool rejects new work. -/
theorem c9_witness :
    (ThreadPool.shutdown ⟨false, [1, 2]⟩).enqueue 3
      = Except.error "enqueue on stopped ThreadPool" :=
  c9_enqueue_after_shutdown_fails (ThreadPool.shutdown ⟨false, [1, 2]⟩) 3 rfl

/-! ## Lemmas about the cache map -/

theorem lookupE_eq_none_iff (c : List (TileKey × CacheEntry)) (k : TileKey) :
    lookupE c k = none ↔ ∀ e ∈ c, e.1 ≠ k := by
  unfold lookupE
  simp [Option.map_eq_none', List.find?_eq_none]

theorem mem_of_lookupE_some {c : List (TileKey × CacheEntry)} {k : TileKey}
    {v : CacheEntry} (h : lookupE c k = some v) : (k, v) ∈ c := by
  unfold lookupE at h
  obtain ⟨e, he, hev⟩ := Option.map_eq_some'.mp h
  obtain ⟨a, b⟩ := e
  have h1 : a = k := by simpa using List.find?_some he
  have h2 : b = v := hev
  subst h1
  subst h2
  exact List.mem_of_find?_eq_some he

theorem lookupE_of_mem_nodup {c : List (TileKey × CacheEntry)} {k : TileKey}
    {v : CacheEntry} (hnd : (c.map (fun e => e.1)).Nodup) (hm : (k, v) ∈ c) :
    lookupE c k = some v := by
  induction c with
  | nil => cases hm
  | cons a t ih =>
      have hnd' : a.1 ∉ t.map (fun e => e.1) ∧ (t.map (fun e => e.1)).Nodup := by
        simpa [List.nodup_cons] using hnd
      rcases List.mem_cons.mp hm with h | h
      · rw [← h]
        unfold lookupE
        rw [@List.find?_cons_of_pos _ (fun e => e.1 == k) (k, v) t (by simp)]
        rfl
      · have hk : ¬(a.1 == k) = true := by
          simp only [beq_iff_eq]
          intro hak
          refine hnd'.1 ?_
          rw [hak]
          simpa using List.mem_map_of_mem (fun e => e.1) h
        unfold lookupE
        rw [@List.find?_cons_of_neg _ (fun e => e.1 == k) a t hk]
        exact ih hnd'.2 h

theorem find?_mapEntry (kq : TileKey) (f : CacheEntry → CacheEntry)
    (c : List (TileKey × CacheEntry)) (k : TileKey) :
    (mapEntry kq f c).find? (fun e => e.1 == k)
      = (c.find? (fun e => e.1 == k)).map
          (fun e => if e.1 == kq then (e.1, f e.2) else e) := by
  unfold mapEntry
  induction c with
  | nil => rfl
  | cons a t ih =>
      rw [List.map_cons]
      by_cases hak : a.1 = k
      · have h1 : ((if (a.1 == kq) = true then (a.1, f a.2) else a).1 == k) = true := by
          split <;> simp [hak]
        rw [@List.find?_cons_of_pos _ (fun e => e.1 == k)
            (if (a.1 == kq) = true then (a.1, f a.2) else a)
            (t.map (fun e => if (e.1 == kq) = true then (e.1, f e.2) else e)) h1,
          @List.find?_cons_of_pos _ (fun e => e.1 == k) a t (by simp [hak])]
        rfl
      · have h1 : ¬((if (a.1 == kq) = true then (a.1, f a.2) else a).1 == k) = true := by
          split <;> simp [hak]
        rw [@List.find?_cons_of_neg _ (fun e => e.1 == k)
            (if (a.1 == kq) = true then (a.1, f a.2) else a)
            (t.map (fun e => if (e.1 == kq) = true then (e.1, f e.2) else e)) h1,
          @List.find?_cons_of_neg _ (fun e => e.1 == k) a t (by simp [hak])]
        exact ih

theorem lookupE_mapEntry (kq : TileKey) (f : CacheEntry → CacheEntry)
    (c : List (TileKey × CacheEntry)) (k : TileKey) :
    lookupE (mapEntry kq f c) k
      = (lookupE c k).map (fun v => if k = kq then f v else v) := by
  unfold lookupE
  rw [find?_mapEntry]
  cases hfind : c.find? (fun e => e.1 == k) with
  | none => rfl
  | some e =>
      have hek : e.1 = k := by simpa using List.find?_some hfind
      simp only [Option.map_some']
      rw [hek]
      by_cases hkq : k = kq
      · simp [hkq]
      · simp [hkq]

theorem keys_mapEntry (kq : TileKey) (f : CacheEntry → CacheEntry)
    (c : List (TileKey × CacheEntry)) :
    (mapEntry kq f c).map (fun e => e.1) = c.map (fun e => e.1) := by
  unfold mapEntry
  rw [List.map_map]
  refine List.map_congr_left ?_
  intro e _
  show (if (e.1 == kq) = true then (e.1, f e.2) else e).1 = e.1
  split <;> rfl

theorem sumSizes_mapEntry (kq : TileKey) (f : CacheEntry → CacheEntry)
    (c : List (TileKey × CacheEntry)) (hf : ∀ v, (f v).size = v.size) :
    TileCache.sumSizes (mapEntry kq f c) = TileCache.sumSizes c := by
  unfold TileCache.sumSizes mapEntry
  rw [List.map_map]
  congr 1
  refine List.map_congr_left ?_
  intro e _
  show (if (e.1 == kq) = true then (e.1, f e.2) else e).2.size = e.2.size
  split <;> simp [hf]

theorem keys_runTasks (ts : Nat) (tasks : List (TileKey × Mat))
    (c : List (TileKey × CacheEntry)) :
    (runTasks ts tasks c).map (fun e => e.1) = c.map (fun e => e.1) := by
  induction tasks generalizing c with
  | nil => rfl
  | cons t rest ih =>
      show (runTasks ts rest (applyTask ts c t.1 t.2)).map _ = _
      rw [ih]
      exact keys_mapEntry ..

theorem sumSizes_runTasks (ts : Nat) (tasks : List (TileKey × Mat))
    (c : List (TileKey × CacheEntry)) :
    TileCache.sumSizes (runTasks ts tasks c) = TileCache.sumSizes c := by
  induction tasks generalizing c with
  | nil => rfl
  | cons t rest ih =>
      show TileCache.sumSizes (runTasks ts rest (applyTask ts c t.1 t.2)) = _
      rw [ih]
      exact sumSizes_mapEntry _ _ _ (fun v => rfl)

theorem lookupE_runTasks_tileId (ts : Nat) (tasks : List (TileKey × Mat))
    (c : List (TileKey × CacheEntry)) (k : TileKey) :
    (lookupE (runTasks ts tasks c) k).map (fun v => v.tileId)
      = (lookupE c k).map (fun v => v.tileId) := by
  induction tasks generalizing c with
  | nil => rfl
  | cons t rest ih =>
      show (lookupE (runTasks ts rest (applyTask ts c t.1 t.2)) k).map _ = _
      rw [ih]
      unfold applyTask
      rw [lookupE_mapEntry]
      cases lookupE c k with
      | none => rfl
      | some v => simp only [Option.map_some']; split <;> rfl

theorem lookupE_eq_none_iff_keys (c : List (TileKey × CacheEntry)) (k : TileKey) :
    lookupE c k = none ↔ k ∉ c.map (fun e => e.1) := by
  rw [lookupE_eq_none_iff]
  simp only [List.mem_map]
  push_neg
  constructor
  · intro h e he hek
    exact h e he hek
  · intro h e he
    exact h e he

theorem lookupE_runTasks_none (ts : Nat) (tasks : List (TileKey × Mat))
    (c : List (TileKey × CacheEntry)) (k : TileKey) :
    lookupE (runTasks ts tasks c) k = none ↔ lookupE c k = none := by
  rw [lookupE_eq_none_iff_keys, lookupE_eq_none_iff_keys, keys_runTasks]

/-! ## Lemmas about eviction -/

theorem foldl_oldestStep_mem (es : List (TileKey × CacheEntry)) (a : TileKey × CacheEntry) :
    es.foldl TileCache.oldestStep a = a ∨ es.foldl TileCache.oldestStep a ∈ es := by
  induction es generalizing a with
  | nil => exact Or.inl rfl
  | cons b t ih =>
      rw [List.foldl_cons]
      rcases ih (TileCache.oldestStep a b) with h | h
      · rw [h]
        unfold TileCache.oldestStep
        split
        · exact Or.inr (List.mem_cons_self ..)
        · exact Or.inl rfl
      · exact Or.inr (List.mem_cons_of_mem _ h)

theorem foldl_oldestStep_le_init (es : List (TileKey × CacheEntry))
    (a : TileKey × CacheEntry) :
    (es.foldl TileCache.oldestStep a).2.lastAccess ≤ a.2.lastAccess := by
  induction es generalizing a with
  | nil => exact le_refl _
  | cons b t ih =>
      rw [List.foldl_cons]
      refine le_trans (ih (TileCache.oldestStep a b)) ?_
      unfold TileCache.oldestStep
      split
      · omega
      · exact le_refl _

theorem foldl_oldestStep_le_mem (es : List (TileKey × CacheEntry))
    (a : TileKey × CacheEntry) :
    ∀ q ∈ es, (es.foldl TileCache.oldestStep a).2.lastAccess ≤ q.2.lastAccess := by
  induction es generalizing a with
  | nil => intro q hq; cases hq
  | cons b t ih =>
      intro q hq
      rw [List.foldl_cons]
      rcases List.mem_cons.mp hq with h | h
      · subst h
        refine le_trans (foldl_oldestStep_le_init t (TileCache.oldestStep a q)) ?_
        unfold TileCache.oldestStep
        split
        · exact le_refl _
        · omega
      · exact ih (TileCache.oldestStep a b) q h

theorem scanOldest_mem {c : List (TileKey × CacheEntry)} {p : TileKey × CacheEntry}
    (h : TileCache.scanOldest c = some p) : p ∈ c := by
  cases c with
  | nil => cases h
  | cons a t =>
      injection h with h
      rcases foldl_oldestStep_mem t a with h2 | h2
      · rw [← h, h2]; exact List.mem_cons_self ..
      · rw [← h]; exact List.mem_cons_of_mem _ h2

theorem scanOldest_le {c : List (TileKey × CacheEntry)} {p : TileKey × CacheEntry}
    (h : TileCache.scanOldest c = some p) :
    ∀ q ∈ c, p.2.lastAccess ≤ q.2.lastAccess := by
  cases c with
  | nil => cases h
  | cons a t =>
      injection h with h
      intro q hq
      rcases List.mem_cons.mp hq with h2 | h2
      · subst h2; rw [← h]; exact foldl_oldestStep_le_init t q
      · rw [← h]; exact foldl_oldestStep_le_mem t a q h2

theorem scanOldest_isSome {c : List (TileKey × CacheEntry)}
    (h : c.isEmpty = false) : ∃ p, TileCache.scanOldest c = some p := by
  cases c with
  | nil => simp [List.isEmpty] at h
  | cons a t => exact ⟨_, rfl⟩

theorem keys_eraseP_nodup {c : List (TileKey × CacheEntry)} (k : TileKey)
    (hnd : (c.map (fun e => e.1)).Nodup) :
    ((c.eraseP (fun e => e.1 == k)).map (fun e => e.1)).Nodup :=
  List.Nodup.sublist (List.Sublist.map _ (List.eraseP_sublist c)) hnd

theorem sumSizes_eraseP {c : List (TileKey × CacheEntry)} {k : TileKey} {v : CacheEntry}
    (hnd : (c.map (fun e => e.1)).Nodup) (hm : (k, v) ∈ c) :
    v.size ≤ TileCache.sumSizes c ∧
      TileCache.sumSizes (c.eraseP (fun e => e.1 == k))
        = TileCache.sumSizes c - v.size := by
  induction c with
  | nil => cases hm
  | cons a t ih =>
      have hnd' : a.1 ∉ t.map (fun e => e.1) ∧ (t.map (fun e => e.1)).Nodup := by
        simpa [List.nodup_cons] using hnd
      rcases List.mem_cons.mp hm with h | h
      · rw [@List.eraseP_cons_of_pos _ a t (fun e => e.1 == k) (by rw [← h]; simp)]
        rw [← h]
        unfold TileCache.sumSizes
        simp only [List.map_cons, List.sum_cons]
        omega
      · have hak : ¬(a.1 == k) = true := by
          simp only [beq_iff_eq]
          intro he
          refine hnd'.1 ?_
          rw [he]
          simpa using List.mem_map_of_mem (fun e => e.1) h
        rw [@List.eraseP_cons_of_neg _ a t (fun e => e.1 == k) hak]
        obtain ⟨ih1, ih2⟩ := ih hnd'.2 h
        unfold TileCache.sumSizes at *
        simp only [List.map_cons, List.sum_cons]
        omega

theorem mem_eraseP_of_key_ne {c : List (TileKey × CacheEntry)} {k : TileKey}
    {q : TileKey × CacheEntry} (hq : q ∈ c) (hne : q.1 ≠ k) :
    q ∈ c.eraseP (fun e => e.1 == k) := by
  induction c with
  | nil => cases hq
  | cons a t ih =>
      by_cases ha : (a.1 == k) = true
      · rw [@List.eraseP_cons_of_pos _ a t (fun e => e.1 == k) ha]
        rcases List.mem_cons.mp hq with h | h
        · exfalso
          apply hne
          rw [h]
          simpa using ha
        · exact h
      · rw [@List.eraseP_cons_of_neg _ a t (fun e => e.1 == k) ha]
        rcases List.mem_cons.mp hq with h | h
        · rw [h]; exact List.mem_cons_self ..
        · exact List.mem_cons_of_mem _ (ih h)

theorem lookupE_eraseP_self {c : List (TileKey × CacheEntry)} {k : TileKey} {v : CacheEntry}
    (hnd : (c.map (fun e => e.1)).Nodup) (hm : (k, v) ∈ c) :
    lookupE (c.eraseP (fun e => e.1 == k)) k = none := by
  induction c with
  | nil => cases hm
  | cons a t ih =>
      have hnd' : a.1 ∉ t.map (fun e => e.1) ∧ (t.map (fun e => e.1)).Nodup := by
        simpa [List.nodup_cons] using hnd
      by_cases ha : (a.1 == k) = true
      · rw [@List.eraseP_cons_of_pos _ a t (fun e => e.1 == k) ha]
        rw [lookupE_eq_none_iff_keys]
        intro hk
        refine hnd'.1 ?_
        rw [show a.1 = k by simpa using ha]
        exact hk
      · have hm' : (k, v) ∈ t := by
          rcases List.mem_cons.mp hm with h | h
          · exfalso; apply ha; rw [← h]; simp
          · exact h
        rw [@List.eraseP_cons_of_neg _ a t (fun e => e.1 == k) ha]
        unfold lookupE
        rw [@List.find?_cons_of_neg _ (fun e => e.1 == k) a (t.eraseP (fun e => e.1 == k)) ha]
        exact ih hnd'.2 hm'

theorem evictOne_maxMemory (s : CacheState) :
    (TileCache.evictOne s).maxMemory = s.maxMemory := by
  unfold TileCache.evictOne
  cases h : TileCache.scanOldest s.cache <;> rfl

theorem evictOne_WF {s : CacheState} (h : CacheWF s) : CacheWF (TileCache.evictOne s) := by
  unfold TileCache.evictOne
  cases hscan : TileCache.scanOldest s.cache with
  | none => exact h
  | some p =>
      have hm : (p.1, p.2) ∈ s.cache := scanOldest_mem hscan
      obtain ⟨hle, herase⟩ := sumSizes_eraseP h.1 hm
      refine ⟨keys_eraseP_nodup p.1 h.1, ?_⟩
      show s.currentMemoryUsage - p.2.size = _
      rw [herase, h.2]

theorem evictOne_length {s : CacheState} (hne : s.cache.isEmpty = false) :
    (TileCache.evictOne s).cache.length + 1 = s.cache.length := by
  obtain ⟨p, hscan⟩ := scanOldest_isSome hne
  unfold TileCache.evictOne
  rw [hscan]
  have hm : p ∈ s.cache := scanOldest_mem hscan
  have hlen : (s.cache.eraseP (fun e => e.1 == p.1)).length = s.cache.length - 1 :=
    List.length_eraseP_of_mem hm (by simp)
  have hpos : 0 < s.cache.length := List.length_pos_of_mem hm
  show (s.cache.eraseP (fun e => e.1 == p.1)).length + 1 = s.cache.length
  omega

theorem evictLoop_succ (n : Nat) (s : CacheState)
    (hcond : s.currentMemoryUsage > s.maxMemory / 2 ∧ s.cache.isEmpty = false) :
    TileCache.evictLoop (n + 1) s = TileCache.evictLoop n (TileCache.evictOne s) := by
  conv_lhs => unfold TileCache.evictLoop
  rw [if_pos hcond]

theorem evictLoop_maxMemory (fuel : Nat) (s : CacheState) :
    (TileCache.evictLoop fuel s).maxMemory = s.maxMemory := by
  induction fuel generalizing s with
  | zero => rfl
  | succ n ih =>
      unfold TileCache.evictLoop
      split
      · rw [ih, evictOne_maxMemory]
      · rfl

theorem evictLoop_WF {fuel : Nat} {s : CacheState} (h : CacheWF s) :
    CacheWF (TileCache.evictLoop fuel s) := by
  induction fuel generalizing s with
  | zero => exact h
  | succ n ih =>
      unfold TileCache.evictLoop
      split
      · exact ih (evictOne_WF h)
      · exact h

theorem evictLoop_usage {fuel : Nat} {s : CacheState} (h : CacheWF s)
    (hf : s.cache.length ≤ fuel) :
    (TileCache.evictLoop fuel s).currentMemoryUsage ≤ s.maxMemory / 2 := by
  induction fuel generalizing s with
  | zero =>
      have hnil : s.cache = [] := List.length_eq_zero.mp (Nat.le_zero.mp hf)
      show s.currentMemoryUsage ≤ _
      rw [h.2, hnil]
      simp [TileCache.sumSizes]
  | succ n ih =>
      unfold TileCache.evictLoop
      split
      · rename_i hcond
        have h1 := evictOne_WF h
        have h2 := evictOne_length hcond.2
        have h3 : (TileCache.evictOne s).cache.length ≤ n := by omega
        have h4 := ih h1 h3
        rwa [evictOne_maxMemory] at h4
      · rename_i hcond
        by_cases hu : s.currentMemoryUsage ≤ s.maxMemory / 2
        · exact hu
        · exfalso
          apply hcond
          refine ⟨by omega, ?_⟩
          cases hemp : s.cache.isEmpty
          · rfl
          · exfalso
            have hnil : s.cache = [] := List.isEmpty_iff.mp hemp
            apply hu
            rw [h.2, hnil]
            simp [TileCache.sumSizes]

/-- C4: a `getTile`-triggered eviction pass (run exactly when the counter
exceeds the configured maximum) always brings `memoryUsage()` down to at most
half the configured maximum — in particular below the maximum itself (and a
fortiori below max/2 + one tile's size). -/
theorem c4_post_eviction_memory_bound (s : CacheState) (h : CacheWF s)
    (htrig : TileCache.memoryUsage s > s.maxMemory) :
    TileCache.memoryUsage (TileCache.evictIfNeeded s) ≤ s.maxMemory / 2 ∧
      TileCache.memoryUsage (TileCache.evictIfNeeded s) ≤ s.maxMemory := by
  have h1 := evictLoop_usage h (le_refl s.cache.length)
  exact ⟨h1, le_trans h1 (Nat.div_le_self ..)⟩

/-- Witness for C4: `demoState` is 60 bytes over its 100-byte budget; the
eviction pass empties it down to 0 ≤ 50. -/
theorem c4_witness :
    TileCache.memoryUsage (TileCache.evictIfNeeded demoState) ≤ demoState.maxMemory / 2 ∧
      TileCache.memoryUsage (TileCache.evictIfNeeded demoState) ≤ demoState.maxMemory :=
  c4_post_eviction_memory_bound demoState ⟨by decide, by decide⟩ (by decide)

/-- C5: with pairwise-distinct last-access timestamps and memory forced over
budget, the eviction pass removes the strictly least-recently-used entry
first: the scanned entry is in the map, is strictly older than every other
entry, is gone after the first eviction step while every other entry is still
present, and the pass is exactly that first step followed by the remaining
loop. -/
theorem c5_evicts_lru_first (s : CacheState) (p : TileKey × CacheEntry)
    (hwf : CacheWF s)
    (hd : s.cache.Pairwise (fun a b => a.2.lastAccess ≠ b.2.lastAccess))
    (hover : TileCache.memoryUsage s > s.maxMemory)
    (hscan : TileCache.scanOldest s.cache = some p) :
    p ∈ s.cache ∧
      (∀ q ∈ s.cache, q ≠ p → p.2.lastAccess < q.2.lastAccess) ∧
      lookupE (TileCache.evictOne s).cache p.1 = none ∧
      (∀ q ∈ s.cache, q.1 ≠ p.1 → lookupE (TileCache.evictOne s).cache q.1 = some q.2) ∧
      TileCache.evictIfNeeded s
        = TileCache.evictLoop (s.cache.length - 1) (TileCache.evictOne s) := by
  have hmem : p ∈ s.cache := scanOldest_mem hscan
  have hcache : (TileCache.evictOne s).cache = s.cache.eraseP (fun e => e.1 == p.1) := by
    unfold TileCache.evictOne
    rw [hscan]
  have hstrict : ∀ q ∈ s.cache, q ≠ p → p.2.lastAccess < q.2.lastAccess := by
    intro q hq hqp
    have hle : p.2.lastAccess ≤ q.2.lastAccess := scanOldest_le hscan q hq
    have hne : q.2.lastAccess ≠ p.2.lastAccess :=
      hd.forall (fun a b hab => hab.symm) hq hmem hqp
    omega
  refine ⟨hmem, hstrict, ?_, ?_, ?_⟩
  · rw [hcache]
    exact lookupE_eraseP_self hwf.1 (show (p.1, p.2) ∈ s.cache from hmem)
  · intro q hq hqk
    rw [hcache]
    exact lookupE_of_mem_nodup (keys_eraseP_nodup p.1 hwf.1)
      (show (q.1, q.2) ∈ _ from mem_eraseP_of_key_ne hq hqk)
  · have hpos : 0 < s.cache.length := List.length_pos_of_mem hmem
    have hemp : s.cache.isEmpty = false := by
      cases hval : s.cache.isEmpty
      · rfl
      · rw [List.isEmpty_iff.mp hval] at hpos; cases hpos
    unfold TileCache.evictIfNeeded
    have hlen : s.cache.length = (s.cache.length - 1) + 1 := by omega
    rw [hlen]
    exact evictLoop_succ (s.cache.length - 1) s
      ⟨by have := Nat.div_le_self s.maxMemory 2
          unfold TileCache.memoryUsage at hover
          omega,
        hemp⟩

/-- Witness for C5: in `demoState`, entry B (lastAccess 3) is strictly older
than entry A (lastAccess 5); one eviction step removes exactly B. -/
theorem c5_witness :
    lookupE (TileCache.evictOne demoState).cache demoKeyB = none ∧
      lookupE (TileCache.evictOne demoState).cache demoKeyA = some demoEntryA := by
  have h := c5_evicts_lru_first demoState (demoKeyB, demoEntryB)
    ⟨by decide, by decide⟩ (by decide) (by decide) rfl
  exact ⟨h.2.2.1, h.2.2.2.1 (demoKeyA, demoEntryA) (List.mem_cons_self ..) (by decide)⟩

/-! ## getTile characterization and well-formedness preservation -/

theorem processCompletedTasks_WF {s : CacheState} (h : CacheWF s) :
    CacheWF (TileCache.processCompletedTasks s) := by
  refine ⟨?_, ?_⟩
  · show ((runTasks s.tileSize s.completedTasks s.cache).map (fun e => e.1)).Nodup
    rw [keys_runTasks]
    exact h.1
  · show s.currentMemoryUsage = TileCache.sumSizes (runTasks s.tileSize s.completedTasks s.cache)
    rw [sumSizes_runTasks]
    exact h.2

theorem keys_append_nodup {c : List (TileKey × CacheEntry)} {k : TileKey}
    {entry : CacheEntry} (hnd : (c.map (fun e => e.1)).Nodup)
    (hnone : lookupE c k = none) :
    ((c ++ [(k, entry)]).map (fun e => e.1)).Nodup := by
  rw [List.map_append, List.nodup_append]
  refine ⟨hnd, by simp, ?_⟩
  intro a ha hb
  simp only [List.map_cons, List.map_nil, List.mem_cons, List.not_mem_nil, or_false] at hb
  have hkeys := (lookupE_eq_none_iff_keys c k).mp hnone
  rw [hb] at ha
  exact hkeys ha

theorem sumSizes_append (c : List (TileKey × CacheEntry)) (k : TileKey)
    (entry : CacheEntry) :
    TileCache.sumSizes (c ++ [(k, entry)]) = TileCache.sumSizes c + entry.size := by
  unfold TileCache.sumSizes
  rw [List.map_append, List.sum_append]
  simp

theorem insertStub_WF {s : CacheState} {k : TileKey} (h : CacheWF s)
    (hnone : lookupE s.cache k = none) : CacheWF (TileCache.insertStub s k) := by
  refine ⟨keys_append_nodup h.1 hnone, ?_⟩
  show s.currentMemoryUsage + TileCache.stubSizeBytes s
      = TileCache.sumSizes (s.cache ++
          [(k, { tileId := s.nextTileId, tileData := none,
                 size := TileCache.stubSizeBytes s, lastAccess := s.now })])
  rw [sumSizes_append, h.2]

theorem getTile_hit {s : CacheState} {level x y : Nat} {e : CacheEntry}
    (hlook : lookupE (TileCache.processCompletedTasks s).cache ⟨level, x, y⟩ = some e) :
    TileCache.getTile s level x y
      = (e.tileId,
          { TileCache.processCompletedTasks s with
              cache := touch (TileCache.processCompletedTasks s).cache ⟨level, x, y⟩
                  (TileCache.processCompletedTasks s).now,
              now := (TileCache.processCompletedTasks s).now + 1 }) := by
  simp only [TileCache.getTile]
  rw [hlook]

theorem getTile_miss {s : CacheState} {level x y : Nat}
    (hlook : lookupE (TileCache.processCompletedTasks s).cache ⟨level, x, y⟩ = none) :
    TileCache.getTile s level x y
      = ((TileCache.processCompletedTasks s).nextTileId,
          if (TileCache.insertStub (TileCache.processCompletedTasks s)
                ⟨level, x, y⟩).currentMemoryUsage
              > (TileCache.insertStub (TileCache.processCompletedTasks s)
                  ⟨level, x, y⟩).maxMemory then
            TileCache.evictIfNeeded
              (TileCache.insertStub (TileCache.processCompletedTasks s) ⟨level, x, y⟩)
          else
            TileCache.insertStub (TileCache.processCompletedTasks s) ⟨level, x, y⟩) := by
  simp only [TileCache.getTile]
  rw [hlook]

theorem evictOne_cache_sublist (s : CacheState) :
    (TileCache.evictOne s).cache.Sublist s.cache := by
  unfold TileCache.evictOne
  cases h : TileCache.scanOldest s.cache with
  | none => exact List.Sublist.refl _
  | some p => exact List.eraseP_sublist _

theorem evictLoop_cache_sublist (fuel : Nat) (s : CacheState) :
    (TileCache.evictLoop fuel s).cache.Sublist s.cache := by
  induction fuel generalizing s with
  | zero => exact List.Sublist.refl _
  | succ n ih =>
      unfold TileCache.evictLoop
      split
      · exact List.Sublist.trans (ih ..) (evictOne_cache_sublist s)
      · exact List.Sublist.refl _

/-- C10: the memory counter always equals the sum of the per-entry byte sizes
of the entries in the map (together with per-key uniqueness of the map); this
invariant is preserved by every cache operation — `getTile` insertion and its
eviction pass, worker completion, `clear`, and a `setSourceImage` call (which
deadlocks before mutating anything, leaving the state unchanged). -/
theorem c10_memory_counter_invariant (op : CacheOp) (s : CacheState)
    (h : CacheWF s) : CacheWF (op.step s) := by
  cases op with
  | clearOp => exact ⟨List.nodup_nil, rfl⟩
  | setSourceOp m =>
      show CacheWF s
      exact h
  | workerCompleteOp k =>
      show CacheWF (TileCache.workerComplete s k)
      unfold TileCache.workerComplete
      split
      · split <;> exact h
      · exact h
  | getTileOp level x y =>
      show CacheWF (TileCache.getTile s level x y).2
      have h1 : CacheWF (TileCache.processCompletedTasks s) := processCompletedTasks_WF h
      cases hlook : lookupE (TileCache.processCompletedTasks s).cache ⟨level, x, y⟩ with
      | some e =>
          rw [getTile_hit hlook]
          refine ⟨?_, ?_⟩
          · show ((touch (TileCache.processCompletedTasks s).cache _ _).map
                (fun e => e.1)).Nodup
            unfold touch
            rw [keys_mapEntry]
            exact h1.1
          · show (TileCache.processCompletedTasks s).currentMemoryUsage
                = TileCache.sumSizes (touch (TileCache.processCompletedTasks s).cache _ _)
            unfold touch
            rw [sumSizes_mapEntry ⟨level, x, y⟩
              (fun v => { v with lastAccess := (TileCache.processCompletedTasks s).now })
              (TileCache.processCompletedTasks s).cache (fun v => rfl)]
            exact h1.2
      | none =>
          rw [getTile_miss hlook]
          have h2 : CacheWF (TileCache.insertStub (TileCache.processCompletedTasks s)
              ⟨level, x, y⟩) := insertStub_WF h1 hlook
          show CacheWF (if _ then _ else _)
          split
          · unfold TileCache.evictIfNeeded
            exact evictLoop_WF h2
          · exact h2

/-- Witness for C10: a `getTile` miss on the well-formed two-entry
`demoState` preserves the invariant. -/
theorem c10_witness : CacheWF (CacheOp.step (CacheOp.getTileOp 0 0 2) demoState) :=
  c10_memory_counter_invariant (CacheOp.getTileOp 0 0 2) demoState ⟨by decide, by decide⟩

/-- C3: while a key is in the cache map, every further `getTile` for it
returns the stored entry's tile instance and enqueues no new job; and
whatever `getTile` call put (or left) the key in the map, the entry's stored
tile is exactly the instance that call returned — so repeated calls before
completion or eviction all hand back the first call's Tile and a single job. -/
theorem c3_repeated_getTile_same_tile (s : CacheState) (level x y : Nat) :
    (∀ e, lookupE s.cache ⟨level, x, y⟩ = some e →
        (TileCache.getTile s level x y).1 = e.tileId ∧
          (TileCache.getTile s level x y).2.pendingJobs = s.pendingJobs) ∧
      (∀ e, lookupE (TileCache.getTile s level x y).2.cache ⟨level, x, y⟩ = some e →
        e.tileId = (TileCache.getTile s level x y).1) := by
  constructor
  · intro e he
    have hmap := lookupE_runTasks_tileId s.tileSize s.completedTasks s.cache ⟨level, x, y⟩
    rw [he] at hmap
    obtain ⟨e', he', htid⟩ := Option.map_eq_some'.mp hmap
    rw [getTile_hit he']
    exact ⟨htid, rfl⟩
  · intro e he
    cases hlook : lookupE (TileCache.processCompletedTasks s).cache ⟨level, x, y⟩ with
    | some e0 =>
        rw [getTile_hit hlook] at he ⊢
        have he2 : lookupE (touch (TileCache.processCompletedTasks s).cache ⟨level, x, y⟩
            (TileCache.processCompletedTasks s).now) ⟨level, x, y⟩ = some e := he
        unfold touch at he2
        rw [lookupE_mapEntry, hlook] at he2
        simp only [Option.map_some', Option.some.injEq] at he2
        rw [if_pos trivial] at he2
        show e.tileId = e0.tileId
        rw [← he2]
    | none =>
        rw [getTile_miss hlook] at he ⊢
        show e.tileId = (TileCache.processCompletedTasks s).nextTileId
        have he2 : lookupE
            (if (TileCache.insertStub (TileCache.processCompletedTasks s)
                  ⟨level, x, y⟩).currentMemoryUsage
                > (TileCache.insertStub (TileCache.processCompletedTasks s)
                    ⟨level, x, y⟩).maxMemory then
              TileCache.evictIfNeeded
                (TileCache.insertStub (TileCache.processCompletedTasks s) ⟨level, x, y⟩)
            else
              TileCache.insertStub (TileCache.processCompletedTasks s)
                ⟨level, x, y⟩).cache ⟨level, x, y⟩ = some e := he
        have hmem2 : ((⟨level, x, y⟩ : TileKey), e)
            ∈ (TileCache.insertStub (TileCache.processCompletedTasks s)
                ⟨level, x, y⟩).cache := by
          split at he2
          · have hmem := mem_of_lookupE_some he2
            exact (evictLoop_cache_sublist ..).subset hmem
          · exact mem_of_lookupE_some he2
        rcases List.mem_append.mp hmem2 with hc | hc
        · exact absurd rfl ((lookupE_eq_none_iff _ _).mp hlook _ hc)
        · simp only [List.mem_cons, List.not_mem_nil, or_false] at hc
          have h2 : e = CacheEntry.mk (TileCache.processCompletedTasks s).nextTileId
              none (TileCache.stubSizeBytes (TileCache.processCompletedTasks s))
              (TileCache.processCompletedTasks s).now :=
            congrArg Prod.snd hc
          rw [h2]

/-- Witness for C3: a second `getTile(0,0,0)` on `demoState` returns the
stored tile instance 10 and leaves the job queue untouched. -/
theorem c3_witness :
    (TileCache.getTile demoState 0 0 0).1 = demoEntryA.tileId ∧
      (TileCache.getTile demoState 0 0 0).2.pendingJobs = demoState.pendingJobs :=
  (c3_repeated_getTile_same_tile demoState 0 0 0).1 demoEntryA rfl

/-- C8 counterexample: run `getTile(0,0,0)` (job J1 pending), `clear()`,
`getTile(0,0,0)` again (new stub, tile instance 1, job J2 pending), then let
J1 — which was in flight at `clear()` time — complete and drain the queue at
the next `getTile`.  The post-clear tile instance 1 ends up loaded
(`tileData.isSome = true`) even though its own job J2 is still pending
(`pendingJobs = [c8key]`): a stale completion repopulated a tile after
`clear()`. -/
theorem c8_counterexample :
    (lookupE c8final.cache c8key).map (fun e => (e.tileId, e.tileData.isSome))
        = some (1, true)
      ∧ c8final.pendingJobs = [c8key] := by decide

/-- C8 (amended): `clear()` drops all entries, zeroes the memory accounting,
and discards every completion queued at the time of the call; a completion
that arrives later is a no-op when its key is absent from the cache — but a
key re-requested after `clear()` is present again, so such a stale completion
is applied to the new stub (the behaviour exhibited by the counterexample). -/
theorem c8_clear_discards_queued_completions (s : CacheState) (k : TileKey) (d : Mat) :
    (TileCache.clear s).cache = [] ∧
      (TileCache.clear s).currentMemoryUsage = 0 ∧
      (TileCache.clear s).completedTasks = [] ∧
      (lookupE s.cache k = none → applyTask s.tileSize s.cache k d = s.cache) := by
  refine ⟨rfl, rfl, rfl, fun hnone => ?_⟩
  have hkeys := (lookupE_eq_none_iff _ _).mp hnone
  unfold applyTask mapEntry
  have hid : ∀ e ∈ s.cache,
      (if (e.1 == k) = true then
        (e.1, { e.2 with tileData := some (applyCompletion s.tileSize d) })
      else e) = e := by
    intro e he
    rw [if_neg (by simp [hkeys e he])]
  rw [List.map_congr_left hid, List.map_id']

/-- Witness for the amended C8: a completion for a key absent from the (here
empty) cache is discarded. -/
theorem c8_witness :
    applyTask c8start.tileSize c8start.cache c8key (constMat 1 1 1 0) = c8start.cache :=
  (c8_clear_discards_queued_completions c8start c8key (constMat 1 1 1 0)).2.2.2 rfl
